import Mathlib

/-!
Verification of the Order & Inventory Transaction Engine of this repository.

The repository ships the React client (src/src/main.jsx, src/unnamed/part_001)
and the HTTP client layer (api.js, embedded in src/README_DEPLOYMENT.md).
Client-side logic (apiRequest error surfacing, the launchFeeRefund default,
the cancelled-order display filter, canCancel, isAvailableStatus) is embedded
directly from that source.  The server (api/app.py, converted to
lambda/main.py) is not part of the repository snapshot; its operations
(createOrder, cancelOrder, validateOrderQr, createUserWithLogin,
listOrdersForUser, updateSubscription) are modelled from the specification,
with concurrency rendered as an arbitrary interleaving of the transactional
operations, which is exactly what store-level transactional isolation buys.
-/

namespace Engine

/-- ASCII lower-casing of a character, the effect of the JavaScript
String.prototype.toLowerCase on the ASCII status strings used by the app. -/
def asciiLowerChar (c : Char) : Char :=
  if 'A' ≤ c ∧ c ≤ 'Z' then Char.ofNat (c.toNat + 32) else c

/-- ASCII lower-casing of a string (JavaScript toLowerCase on ASCII data). -/
def asciiLower (s : String) : String :=
  String.mk (s.data.map asciiLowerChar)

/-- Embedded from src/src/main.jsx (isAvailableStatus) and the identical
inline check in src/unnamed/part_001: a status counts as available when its
lower-cased form is in the list [available, open]. -/
def isAvailableStatus (status : String) : Bool :=
  (["available", "open"]).contains (asciiLower status)

/-! ### JavaScript value coercion (launchFeeRefund default, claim C9) -/

/-- Shallow model of a JavaScript value as it can appear in a Firestore
document field read by the client. -/
inductive JsValue where
  | undef : JsValue
  | null : JsValue
  | bool (b : Bool) : JsValue
  | num (n : Int) : JsValue
  | str (s : String) : JsValue
deriving DecidableEq, Repr

/-- JavaScript Boolean(x) coercion on the modelled values. -/
def jsToBoolean : JsValue → Bool
  | .undef => false
  | .null => false
  | .bool b => b
  | .num n => n ≠ 0
  | .str s => s ≠ ""

/-- Embedded from src/src/main.jsx lines 359-362 (and the identical code in
src/unnamed/part_001 lines 293-297):
launchFeeRefund is true when the raw field is undefined or null, and
Boolean(raw) otherwise. -/
def launchFeeRefundOf (v : JsValue) : Bool :=
  match v with
  | .undef => true
  | .null => true
  | v => jsToBoolean v

/-! ### Cancelled-order display filter (claim C10) and canCancel (claim C2) -/

/-- Shape of an order object as the client receives it from the API: the
status is a raw string that may be missing. -/
structure DisplayOrder where
  id : String
  offeringTitle : String
  status : Option String
  createdAt : Nat
deriving DecidableEq, Repr

/-- JavaScript (order.status or the empty string): a missing status behaves
as the empty string. -/
def rawStatus (o : DisplayOrder) : String :=
  o.status.getD ""

/-- Embedded from src/src/main.jsx lines 470-474 (and src/unnamed/part_001
lines 2156-2160): the student order carousel first filters out every order
whose lower-cased status is cancelled. -/
def activeOrders (orders : List DisplayOrder) : List DisplayOrder :=
  orders.filter (fun o => !((["cancelled"]).contains (asciiLower (rawStatus o))))

/-- Embedded from src/src/main.jsx lines 2941-2943 (and src/unnamed/part_001
lines 2214-2215): a displayed order offers a cancel button only when its
status is truthy and its lower-cased status is none of collected, completed,
cancelled, refunded. -/
def canCancel (status : Option String) : Bool :=
  match status with
  | none => false
  | some st =>
    if st = "" then false
    else !((["collected", "completed", "cancelled", "refunded"]).contains (asciiLower st))

/-! ### The apiRequest helper (claim C8), embedded from api.js
(shipped inside src/README_DEPLOYMENT.md). -/

/-- The error and message fields a parsed JSON error body may carry. -/
structure ErrBody where
  error : Option String
  message : Option String
deriving DecidableEq, Repr

/-- An HTTP response as fetch delivers it: status code, status text and the
raw body text.  The ok flag of fetch is status in the 2xx range. -/
structure HttpResponse where
  status : Nat
  statusText : String
  bodyText : String
deriving DecidableEq, Repr

/-- The Error object apiRequest throws on a non-ok response. -/
structure ThrownError where
  message : String
  status : Nat
  statusText : String
  body : String
deriving DecidableEq, Repr

/-- The fetch ok flag: status in the range 200-299. -/
def responseOk (r : HttpResponse) : Bool :=
  200 ≤ r.status && r.status < 300

/-- JavaScript truthiness filter on an optional string: undefined, null and
the empty string are falsy. -/
def truthyString : Option String → Option String
  | none => none
  | some s => if s = "" then none else some s

/-- Embedded from api.js: the error message is data.error, else data.message,
else the raw body text, else the literal Unknown error, under JavaScript
truthiness at each step. -/
def apiErrorMessage (data : Option ErrBody) (bodyText : String) : String :=
  match truthyString (data.bind ErrBody.error) with
  | some m => m
  | none =>
    match truthyString (data.bind ErrBody.message) with
    | some m => m
    | none => if bodyText = "" then "Unknown error" else bodyText

/-- Embedded from the apiRequest helper in api.js: the body text is parsed
when non-empty (the parsed argument stands for the JSON.parse attempt, none
when parsing failed); a response outside the 2xx range makes apiRequest throw
an Error carrying the derived message, the HTTP status, the status text and
the raw body; an ok response returns the parsed data. -/
def apiRequestResult (resp : HttpResponse) (parsed : Option ErrBody) :
    Except ThrownError (Option ErrBody) :=
  let data := if resp.bodyText = "" then none else parsed
  if responseOk resp then
    .ok data
  else
    .error
      { message := apiErrorMessage data resp.bodyText
        status := resp.status
        statusText := resp.statusText
        body := resp.bodyText }

/-! ### List helper: update the first element matching a predicate.
Models a keyed document write against a collection held as a list. -/

/-- Replaces the first element satisfying p by its image under f; all other
elements are untouched. -/
def updateFirst {α : Type} (p : α → Bool) (f : α → α) : List α → List α
  | [] => []
  | x :: xs => if p x then f x :: xs else x :: updateFirst p f xs

/-! ### Engine data model, following section 3 of the design. -/

/-- Order lifecycle states: pending, collected, cancelled. -/
inductive OrderStatus where
  | pending : OrderStatus
  | collected : OrderStatus
  | cancelled : OrderStatus
deriving DecidableEq, Repr

/-- An Order document: one reservation against an Offering.
The publishedQuantity-style provenance lives on the Offering. -/
structure Order where
  id : Nat
  uid : String
  offeringId : String
  ownerUid : String
  status : OrderStatus
  qrToken : Nat
  createdAt : Nat
  collectedAt : Option Nat
  cancelledAt : Option Nat
  feeRefundEligible : Bool
deriving DecidableEq, Repr

/-- An Offering document.  publishedQuantity records the quantity at publish
time and is never written by the engine; availableQuantity and status are
mutated by the Inventory Ledger. -/
structure Offering where
  publishedQuantity : Nat
  availableQuantity : Int
  status : String
  ownerUid : String
  launchFeeRefund : Bool
deriving DecidableEq, Repr

/-- The error taxonomy of section 7 of the design. -/
inductive ApiError where
  | notFound : ApiError
  | soldOut : ApiError
  | forbidden : ApiError
  | invalidState : ApiError
  | alreadyCollected : ApiError
  | conflict (field : String) : ApiError
deriving DecidableEq, Repr

/-- Decidable equality of call results, so witnesses can be checked by
evaluation. -/
instance instDecEqExcept {ε α : Type} [DecidableEq ε] [DecidableEq α] :
    DecidableEq (Except ε α) := fun x y =>
  match x, y with
  | .ok a, .ok b =>
    if h : a = b then .isTrue (by rw [h]) else .isFalse (by simp [h])
  | .error a, .error b =>
    if h : a = b then .isTrue (by rw [h]) else .isFalse (by simp [h])
  | .ok _, .error _ => .isFalse (by simp)
  | .error _, .ok _ => .isFalse (by simp)

/-- The document-store state the Order State Machine and Inventory Ledger
read and write.  Offerings are an association list keyed by offering id;
nextOrderId and nextToken model fresh id and fresh cryptographically random
token generation; now is the wall clock used for timestamps. -/
structure EngineState where
  users : List String
  offerings : List (String × Offering)
  orders : List Order
  nextOrderId : Nat
  nextToken : Nat
  now : Nat
deriving DecidableEq, Repr

/-- Point read of an Offering document by id. -/
def getOffering (offs : List (String × Offering)) (oid : String) : Option Offering :=
  (offs.find? (fun kv => kv.1 = oid)).map (fun kv => kv.2)

/-- Point write of an Offering document by id (no-op when absent). -/
def mapOffering (offs : List (String × Offering)) (oid : String)
    (f : Offering → Offering) : List (String × Offering) :=
  updateFirst (fun kv => kv.1 = oid) (fun kv => (kv.1, f kv.2)) offs

/-- Modelled from the spec: the Inventory Ledger decrement of section 4.2
(api/app.py create_order is not in the repository snapshot).  Read the
Offering; NotFound if absent; SoldOut if availableQuantity is at most 0 or
the status is not in the available set; otherwise write availableQuantity
minus one, and also write status sold-out when the result is 0. -/
def decrementOffering (offs : List (String × Offering)) (oid : String) :
    Except ApiError (List (String × Offering)) :=
  match getOffering offs oid with
  | none => .error .notFound
  | some off =>
    if off.availableQuantity ≤ 0 || !(isAvailableStatus off.status) then
      .error .soldOut
    else
      .ok (mapOffering offs oid (fun o =>
        { o with
          availableQuantity := o.availableQuantity - 1
          status := if o.availableQuantity - 1 = 0 then "sold-out" else o.status }))

/-- Modelled from the spec: the Inventory Ledger restore of section 4.2.
Write availableQuantity plus one; if the prior status was sold-out, flip it
back to available. -/
def restoreOffering (offs : List (String × Offering)) (oid : String) :
    List (String × Offering) :=
  mapOffering offs oid (fun o =>
    { o with
      availableQuantity := o.availableQuantity + 1
      status := if o.status = "sold-out" then "available" else o.status })

/-- Modelled from the spec: createOrder of section 4.3 (api/app.py
create_order is not in the repository snapshot).  One transaction: verify
the User exists, read the Offering, apply the Inventory Ledger decrement,
mint a pending Order with a fresh id and a fresh unique qrToken, copying the
launchFeeRefund policy from the Offering.  Any failure leaves every document
untouched. -/
def createOrder (uid offeringId : String) (s : EngineState) :
    Except ApiError (Order × EngineState) :=
  if !(s.users.contains uid) then .error .notFound
  else
    match getOffering s.offerings offeringId with
    | none => .error .notFound
    | some off =>
      match decrementOffering s.offerings offeringId with
      | .error e => .error e
      | .ok offs =>
        let order : Order :=
          { id := s.nextOrderId
            uid := uid
            offeringId := offeringId
            ownerUid := off.ownerUid
            status := .pending
            qrToken := s.nextToken
            createdAt := s.now
            collectedAt := none
            cancelledAt := none
            feeRefundEligible := off.launchFeeRefund }
        .ok (order,
          { s with
            offerings := offs
            orders := s.orders ++ [order]
            nextOrderId := s.nextOrderId + 1
            nextToken := s.nextToken + 1
            now := s.now + 1 })

/-- Modelled from the spec: cancelOrder of section 4.3 (api/app.py
cancel_order is not in the repository snapshot).  Validate existence
(NotFound), ownership (Forbidden), and that the status is not already
terminal (InvalidState); then in one transaction set status cancelled, stamp
cancelledAt and apply the Inventory Ledger restore. -/
def cancelOrder (orderId : Nat) (uid : String) (s : EngineState) :
    Except ApiError (Order × EngineState) :=
  match s.orders.find? (fun o => o.id = orderId) with
  | none => .error .notFound
  | some o =>
    if o.uid ≠ uid then .error .forbidden
    else if o.status ≠ .pending then .error .invalidState
    else
      let o1 := { o with status := OrderStatus.cancelled, cancelledAt := some s.now }
      .ok (o1,
        { s with
          orders := updateFirst (fun x => x.id = orderId) (fun _ => o1) s.orders
          offerings := restoreOffering s.offerings o.offeringId
          now := s.now + 1 })

/-- Modelled from the spec: validateOrderQr of section 4.4 (api/app.py
validate_order_qr is not in the repository snapshot).  Look the Order up by
qrToken (NotFound), verify ownership (Forbidden), map an already collected
order to AlreadyCollected and a cancelled one to InvalidState; on a pending
order transactionally set status collected and stamp collectedAt.  Inventory
is untouched. -/
def validateOrderQr (ownerUid : String) (qrToken : Nat) (s : EngineState) :
    Except ApiError (Order × EngineState) :=
  match s.orders.find? (fun o => o.qrToken = qrToken) with
  | none => .error .notFound
  | some o =>
    if o.ownerUid ≠ ownerUid then .error .forbidden
    else
      match o.status with
      | .collected => .error .alreadyCollected
      | .cancelled => .error .invalidState
      | .pending =>
        let o1 := { o with status := OrderStatus.collected, collectedAt := some s.now }
        .ok (o1,
          { s with
            orders := updateFirst (fun x => x.qrToken = qrToken) (fun _ => o1) s.orders
            now := s.now + 1 })

/-! ### Interleavings of concurrent calls. -/

/-- One engine call.  Store-level transactional isolation serialises the
concurrent handlers, so an arbitrary concurrent execution is an arbitrary
sequence of these operations. -/
inductive Op where
  | create (uid offeringId : String) : Op
  | cancel (orderId : Nat) (uid : String) : Op
  | validate (ownerUid : String) (qrToken : Nat) : Op
deriving DecidableEq, Repr

/-- The state left behind by one call: the new state on success, the old
state on any failure (full rollback). -/
def applyOp (s : EngineState) (op : Op) : EngineState :=
  match op with
  | .create uid oid =>
    match createOrder uid oid s with
    | .ok r => r.2
    | .error _ => s
  | .cancel oid uid =>
    match cancelOrder oid uid s with
    | .ok r => r.2
    | .error _ => s
  | .validate ow t =>
    match validateOrderQr ow t s with
    | .ok r => r.2
    | .error _ => s

/-- Runs a sequence of calls. -/
def run (s : EngineState) (ops : List Op) : EngineState :=
  ops.foldl applyOp s

/-- Predicate: an Order references the given Offering and is not cancelled. -/
def ncPred (oid : String) (o : Order) : Bool :=
  o.offeringId = oid ∧ o.status ≠ OrderStatus.cancelled

/-- Number of non-cancelled Orders referencing a given Offering. -/
def nonCancelledCount (orders : List Order) (oid : String) : Nat :=
  orders.countP (ncPred oid)

/-- A state is initial when no Orders exist yet and every Offering still has
its full published quantity, as the publish step leaves it. -/
def InitialState (s : EngineState) : Prop :=
  s.orders = [] ∧
  ∀ kv ∈ s.offerings, kv.2.availableQuantity = (kv.2.publishedQuantity : Int)

/-- The inventory invariant: every visible Offering has a non-negative
availableQuantity equal to its published quantity minus the number of
non-cancelled Orders referencing it. -/
def InventoryInv (s : EngineState) : Prop :=
  ∀ oid off, getOffering s.offerings oid = some off →
    0 ≤ off.availableQuantity ∧
    off.availableQuantity =
      (off.publishedQuantity : Int) - nonCancelledCount s.orders oid

/-- QR tokens are pairwise distinct across Orders and the token counter
dominates every issued token, so freshly minted tokens are never reused. -/
def TokenInv (s : EngineState) : Prop :=
  (s.orders.map (fun o => o.qrToken)).Nodup ∧
  ∀ o ∈ s.orders, o.qrToken < s.nextToken

/-! ### Identity Registrar (claim C4). -/

/-- A User document as the registrar writes it. -/
structure UserDoc where
  name : String
  email : String
  phone : String
deriving DecidableEq, Repr

/-- One login-history entry: timestamp, client IP, user agent. -/
structure LoginEntry where
  uid : String
  timestamp : Nat
  ip : String
  userAgent : String
deriving DecidableEq, Repr

/-- The collections the Identity Registrar touches: Users keyed by uid, the
two uniqueness-marker collections keyed by the normalized phone and email
values themselves, and the login history. -/
structure RegState where
  users : List (String × UserDoc)
  phoneMarkers : List (String × String)
  emailMarkers : List (String × String)
  loginHistory : List LoginEntry
deriving DecidableEq, Repr

/-- Modelled from the spec: phone normalization used to key the phone marker
collection (normalize_phone_for_path of api/app.py is not in the repository
snapshot; the exact normalization is irrelevant to the atomicity claim). -/
def normalizePhone (phone : String) : String :=
  String.mk (phone.data.filter (fun c => c = '+' ∨ ('0' ≤ c ∧ c ≤ '9')))

/-- Modelled from the spec: email normalization used to key the email marker
collection (normalize_email_for_path of api/app.py is not in the repository
snapshot). -/
def normalizeEmail (email : String) : String :=
  asciiLower email

/-- Modelled from the spec: createUserWithLogin of section 4.1 (api/app.py
create_user_with_login is not in the repository snapshot).  Within one store
transaction: read the candidate uid and the markers for the normalized phone
and email; if any already exists, abort with Conflict naming the field;
otherwise write the User document, both markers and a login-history entry as
a single unit. -/
def createUserWithLogin (uid phone email name ip userAgent : String) (now : Nat)
    (s : RegState) : Except ApiError RegState :=
  if (s.users.find? (fun kv => kv.1 = uid)).isSome then
    .error (.conflict "uid")
  else if (s.phoneMarkers.find? (fun kv => kv.1 = normalizePhone phone)).isSome then
    .error (.conflict "phone")
  else if (s.emailMarkers.find? (fun kv => kv.1 = normalizeEmail email)).isSome then
    .error (.conflict "email")
  else
    .ok
      { users := s.users ++ [(uid, { name := name, email := email, phone := phone })]
        phoneMarkers := s.phoneMarkers ++ [(normalizePhone phone, uid)]
        emailMarkers := s.emailMarkers ++ [(normalizeEmail email, uid)]
        loginHistory := s.loginHistory ++
          [{ uid := uid, timestamp := now, ip := ip, userAgent := userAgent }] }

/-- The registrar state an observer can see after the call: the new state on
success, the unchanged state on a conflict (full rollback). -/
def applyReg (uid phone email name ip userAgent : String) (now : Nat)
    (s : RegState) : RegState :=
  match createUserWithLogin uid phone email name ip userAgent now s with
  | .ok s1 => s1
  | .error _ => s

/-! ### Subscription Manager (claim C7). -/

/-- A subscription record on the User document. -/
structure Subscription where
  active : Bool
  waived : Bool
  renewsAt : Option Nat
  monthlyFeeCents : Nat
deriving DecidableEq, Repr

/-- The two subscription actions of section 4.5. -/
inductive SubAction where
  | activate : SubAction
  | deactivate : SubAction
deriving DecidableEq, Repr

/-- One billing period, 30 days, in seconds. -/
def billingPeriod : Nat := 30 * 24 * 60 * 60

/-- Modelled from the spec: updateSubscription of section 4.5 (api/app.py
update_subscription is not in the repository snapshot).  Activate sets
active, takes waived from the caller defaulting to true, computes renewsAt
as now plus one billing period and sets the configured fee; deactivate sets
active to false and leaves renewsAt and waived at their last known values. -/
def updateSubscription (action : SubAction) (waived : Option Bool)
    (now feeCents : Nat) (sub : Subscription) : Subscription :=
  match action with
  | .activate =>
    { active := true
      waived := waived.getD true
      renewsAt := some (now + billingPeriod)
      monthlyFeeCents := feeCents }
  | .deactivate =>
    { sub with active := false }

/-- Embedded from src/src/main.jsx lines 960-998 (handleSubscription)
together with the updateSubscription wrapper of api.js: the waived parameter
the client sends is the last known profile value defaulting to true on
activate, and is omitted from the request body on deactivate (the wrapper
drops any non-boolean waived). -/
def subscriptionWaivedParam (action : SubAction) (profileWaived : Option Bool) :
    Option Bool :=
  match action with
  | .activate => some (profileWaived.getD true)
  | .deactivate => none

/-! ### listOrdersForUser (claim C6). -/

/-- Newest first: a comes no later than b in the listing when b was created
no later than a. -/
def newestFirst (a b : Order) : Prop :=
  b.createdAt ≤ a.createdAt

instance instDecNewestFirst : DecidableRel newestFirst :=
  fun a b => Nat.decLe b.createdAt a.createdAt

instance instTotalNewestFirst : IsTotal Order newestFirst :=
  ⟨fun a b => le_total b.createdAt a.createdAt⟩

instance instTransNewestFirst : IsTrans Order newestFirst :=
  ⟨fun _ _ _ h1 h2 => le_trans h2 h1⟩

/-- Modelled from the spec: listOrdersForUser of section 6 (api/app.py
list_orders_for_user is not in the repository snapshot).  Returns the orders
of the given student, newest first by creation time, capped at 50. -/
def listOrdersForUser (uid : String) (orders : List Order) : List Order :=
  ((orders.filter (fun o => o.uid = uid)).insertionSort newestFirst).take 50

/-! ### Named ledger updates, spec predicates and concrete example data
(example data is used by the witness theorems below). -/

/-- The inventory-ledger update a successful createOrder applies. -/
def decrementUpdate (x : Offering) : Offering :=
  { x with
    availableQuantity := x.availableQuantity - 1
    status := if x.availableQuantity - 1 = 0 then "sold-out" else x.status }

/-- The inventory-ledger update a cancellation applies. -/
def restoreUpdate (x : Offering) : Offering :=
  { x with
    availableQuantity := x.availableQuantity + 1
    status := if x.status = "sold-out" then "available" else x.status }

/-- The only permitted evolutions of an Order status in one step: stay put,
or move from pending to one of the two terminal states. -/
def StatusStep (a b : OrderStatus) : Prop :=
  a = b ∨ (a = .pending ∧ (b = .collected ∨ b = .cancelled))

/-- The Conflict field names exactly an already-registered identity: the uid,
the normalized phone marker, or the normalized email marker. -/
def fieldTaken (f uid phone email : String) (s : RegState) : Prop :=
  (f = "uid" ∧ (s.users.find? (fun kv => kv.1 = uid)).isSome = true) ∨
  (f = "phone" ∧
    (s.phoneMarkers.find? (fun kv => kv.1 = normalizePhone phone)).isSome = true) ∨
  (f = "email" ∧
    (s.emailMarkers.find? (fun kv => kv.1 = normalizeEmail email)).isSome = true)

/-- Concrete initial state for the no-oversell witness: one offering
published with quantity 2, two registered students, no orders yet. -/
def sC1init : EngineState :=
  { users := ["alice", "bob"]
    offerings := [("o1",
      { publishedQuantity := 2, availableQuantity := 2, status := "available",
        ownerUid := "own", launchFeeRefund := true })]
    orders := []
    nextOrderId := 0
    nextToken := 0
    now := 0 }

/-- Concrete interleaving for the no-oversell witness: two reservations by
different students followed by one cancellation. -/
def opsC1 : List Op :=
  [Op.create "alice" "o1", Op.create "bob" "o1", Op.cancel 0 "alice"]

/-- The offering document left behind by the witness interleaving. -/
def offC1 : Offering :=
  { publishedQuantity := 2, availableQuantity := 1, status := "available",
    ownerUid := "own", launchFeeRefund := true }

/-- Concrete state for the C2 witness: one pending order against a sold-out
offering. -/
def ordC2 : Order :=
  { id := 0
    uid := "stud"
    offeringId := "o1"
    ownerUid := "own"
    status := OrderStatus.pending
    qrToken := 0
    createdAt := 2
    collectedAt := none
    cancelledAt := none
    feeRefundEligible := true }

/-- Concrete engine state before the C2 witness cancellation. -/
def sC2a : EngineState :=
  { users := ["stud"]
    offerings := [("o1",
      { publishedQuantity := 1, availableQuantity := 0, status := "sold-out",
        ownerUid := "own", launchFeeRefund := true })]
    orders := [ordC2]
    nextOrderId := 1
    nextToken := 1
    now := 5 }

/-- The order returned by the C2 witness cancellation. -/
def ordC2c : Order :=
  { ordC2 with status := OrderStatus.cancelled, cancelledAt := some 5 }

/-- The engine state after the C2 witness cancellation. -/
def sC2b : EngineState :=
  { users := ["stud"]
    offerings := [("o1",
      { publishedQuantity := 1, availableQuantity := 1, status := "available",
        ownerUid := "own", launchFeeRefund := true })]
    orders := [ordC2c]
    nextOrderId := 1
    nextToken := 1
    now := 6 }

/-- The pending order used by the C3 example states. -/
def ordC3 : Order :=
  { id := 0
    uid := "stud"
    offeringId := "o1"
    ownerUid := "owner"
    status := OrderStatus.pending
    qrToken := 5
    createdAt := 3
    collectedAt := none
    cancelledAt := none
    feeRefundEligible := true }

/-- Engine state holding one pending order with token 5, before the first
validation. -/
def sC3a : EngineState :=
  { users := ["stud"]
    offerings := [("o1",
      { publishedQuantity := 1, availableQuantity := 0, status := "sold-out",
        ownerUid := "owner", launchFeeRefund := true })]
    orders := [ordC3]
    nextOrderId := 1
    nextToken := 6
    now := 10 }

/-- The collected order the first validation returns. -/
def ordC3c : Order :=
  { ordC3 with status := OrderStatus.collected, collectedAt := some 10 }

/-- Engine state after the first successful validation. -/
def sC3b : EngineState :=
  { sC3a with orders := [ordC3c], now := 11 }

/-- Concrete offering collection for the C5 witness: one unit left, status
written with a capital letter to exercise the case-insensitive check. -/
def offsC5 : List (String × Offering) :=
  [("o1",
    { publishedQuantity := 3, availableQuantity := 1, status := "Available",
      ownerUid := "own", launchFeeRefund := false })]

/-- Orders stored for the C6 witness: two orders of the student, one of
another user, out of creation order. -/
def ordersC6 : List Order :=
  [{ id := 10, uid := "stud", offeringId := "o1", ownerUid := "own",
     status := OrderStatus.pending, qrToken := 20, createdAt := 5,
     collectedAt := none, cancelledAt := none, feeRefundEligible := true },
   { id := 12, uid := "other", offeringId := "o1", ownerUid := "own",
     status := OrderStatus.pending, qrToken := 22, createdAt := 7,
     collectedAt := none, cancelledAt := none, feeRefundEligible := true },
   { id := 11, uid := "stud", offeringId := "o2", ownerUid := "own",
     status := OrderStatus.pending, qrToken := 21, createdAt := 9,
     collectedAt := none, cancelledAt := none, feeRefundEligible := true }]

/-- The newest stored order of the student in the C6 witness data. -/
def ordC6new : Order :=
  { id := 11, uid := "stud", offeringId := "o2", ownerUid := "own",
    status := OrderStatus.pending, qrToken := 21, createdAt := 9,
    collectedAt := none, cancelledAt := none, feeRefundEligible := true }

/-- The concrete 404 response used by the C8 witness. -/
def respC8 : HttpResponse :=
  { status := 404
    statusText := "Not Found"
    bodyText := "error body" }

/-- The parsed JSON body used by the C8 witness. -/
def parsedC8 : Option ErrBody :=
  some { error := some "Offering not found", message := none }

/-! ### Helper lemmas about updateFirst, find? and countP. -/

theorem updateFirst_middle {α : Type} (p : α → Bool) (f : α → α) (l₁ l₂ : List α) (a : α)
    (h₁ : ∀ x ∈ l₁, p x = false) (ha : p a = true) :
    updateFirst p f (l₁ ++ a :: l₂) = l₁ ++ f a :: l₂ := by
  induction l₁ with
  | nil => simp [updateFirst, ha]
  | cons x xs ih =>
    have hx : p x = false := h₁ x (List.mem_cons_self x xs)
    simp only [List.cons_append, updateFirst, hx]
    simp only [Bool.false_eq_true, if_false, List.append_eq]
    rw [ih (fun y hy => h₁ y (List.mem_cons_of_mem x hy))]

theorem find?_middle {α : Type} (p : α → Bool) (l₁ l₂ : List α) (a : α)
    (h₁ : ∀ x ∈ l₁, p x = false) (ha : p a = true) :
    List.find? p (l₁ ++ a :: l₂) = some a := by
  induction l₁ with
  | nil => simp [List.find?, ha]
  | cons x xs ih =>
    have hx : p x = false := h₁ x (List.mem_cons_self x xs)
    simp only [List.cons_append, List.find?, hx]
    exact ih (fun y hy => h₁ y (List.mem_cons_of_mem x hy))

theorem find?_middle_congr {α : Type} (p : α → Bool) (l₁ l₂ : List α) (a b : α)
    (ha : p a = false) (hb : p b = false) :
    List.find? p (l₁ ++ a :: l₂) = List.find? p (l₁ ++ b :: l₂) := by
  rw [List.find?_append, List.find?_append]
  congr 1
  rw [List.find?_cons, List.find?_cons, ha, hb]

theorem countP_middle {α : Type} (p : α → Bool) (l₁ l₂ : List α) (a : α) :
    List.countP p (l₁ ++ a :: l₂) =
      List.countP p l₁ + List.countP p l₂ + (if p a then 1 else 0) := by
  rw [List.countP_append, List.countP_cons]
  omega

theorem find?_eq_some_decomp {α : Type} (p : α → Bool) (l : List α) (a : α)
    (h : List.find? p l = some a) :
    p a = true ∧ ∃ l₁ l₂, l = l₁ ++ a :: l₂ ∧ ∀ x ∈ l₁, p x = false := by
  rw [List.find?_eq_some] at h
  obtain ⟨hpa, l₁, l₂, heq, hall⟩ := h
  refine ⟨hpa, l₁, l₂, heq, fun x hx => ?_⟩
  have := hall x hx
  simpa using this

theorem getOffering_mapOffering_self (offs : List (String × Offering)) (oid : String)
    (f : Offering → Offering) :
    getOffering (mapOffering offs oid f) oid = (getOffering offs oid).map f := by
  induction offs with
  | nil => simp [getOffering, mapOffering, updateFirst]
  | cons kv rest ih =>
    by_cases h1 : kv.1 = oid
    · simp [getOffering, mapOffering, updateFirst, List.find?, h1]
    · simp only [mapOffering, updateFirst, h1, decide_eq_false_iff_not, not_false_iff,
        decide_eq_true_eq, if_neg, Bool.false_eq_true]
      simp only [getOffering, List.find?, h1, decide_eq_true_eq, if_neg] at ih ⊢
      simpa [mapOffering] using ih

theorem getOffering_mapOffering_ne (offs : List (String × Offering)) (oid k : String)
    (f : Offering → Offering) (h : k ≠ oid) :
    getOffering (mapOffering offs oid f) k = getOffering offs k := by
  induction offs with
  | nil => simp [getOffering, mapOffering, updateFirst]
  | cons kv rest ih =>
    by_cases h1 : kv.1 = oid
    · have h2 : kv.1 ≠ k := by rw [h1]; exact fun hk => h hk.symm
      have h3 : oid ≠ k := fun hk => h hk.symm
      simp [getOffering, mapOffering, updateFirst, List.find?, h1, h2, h3]
    · by_cases h2 : kv.1 = k
      · simp [getOffering, mapOffering, updateFirst, List.find?, h1, h2, h]
      · simp only [mapOffering, updateFirst, h1, decide_eq_true_eq, if_neg, Bool.false_eq_true]
        simp only [getOffering, List.find?, h2, decide_eq_true_eq, if_neg] at ih ⊢
        simpa [mapOffering] using ih

theorem decrementOffering_eq (offs : List (String × Offering)) (oid : String) :
    decrementOffering offs oid =
      match getOffering offs oid with
      | none => .error .notFound
      | some off =>
        if off.availableQuantity ≤ 0 || !(isAvailableStatus off.status) then
          .error .soldOut
        else .ok (mapOffering offs oid decrementUpdate) := by
  unfold decrementOffering decrementUpdate
  rfl

theorem restoreOffering_eq (offs : List (String × Offering)) (oid : String) :
    restoreOffering offs oid = mapOffering offs oid restoreUpdate := by
  unfold restoreOffering restoreUpdate
  rfl

theorem createOrder_ok (uid oid : String) (s : EngineState) (o : Order) (s1 : EngineState)
    (h : createOrder uid oid s = .ok (o, s1)) :
    ∃ off, getOffering s.offerings oid = some off ∧
      0 < off.availableQuantity ∧ isAvailableStatus off.status = true ∧
      o = { id := s.nextOrderId, uid := uid, offeringId := oid, ownerUid := off.ownerUid,
            status := .pending, qrToken := s.nextToken, createdAt := s.now,
            collectedAt := none, cancelledAt := none,
            feeRefundEligible := off.launchFeeRefund } ∧
      s1 = { s with
        offerings := mapOffering s.offerings oid decrementUpdate
        orders := s.orders ++ [o]
        nextOrderId := s.nextOrderId + 1
        nextToken := s.nextToken + 1
        now := s.now + 1 } := by
  unfold createOrder at h
  rw [decrementOffering_eq] at h
  split at h
  · exact absurd h (by simp)
  · split at h
    · exact absurd h (by simp)
    · rename_i off heq
      dsimp only at h
      split at h
      · exact absurd h (by simp)
      · rename_i offs heq2
        split at heq2
        · exact absurd heq2 (by simp)
        · rename_i hcond
          simp only [Bool.or_eq_true, decide_eq_true_eq, Bool.not_eq_true', not_or] at hcond
          obtain ⟨hq, hb⟩ := hcond
          rw [Except.ok.injEq] at heq2
          rw [Except.ok.injEq, Prod.mk.injEq] at h
          obtain ⟨ho, hs⟩ := h
          subst ho
          refine ⟨off, heq, by omega, ?_, rfl, ?_⟩
          · cases hB : isAvailableStatus off.status
            · exact absurd hB hb
            · rfl
          · rw [← hs, ← heq2]

theorem cancelOrder_ok (orderId : Nat) (uid : String) (s : EngineState)
    (o1 : Order) (s1 : EngineState)
    (h : cancelOrder orderId uid s = .ok (o1, s1)) :
    ∃ o, s.orders.find? (fun x => x.id = orderId) = some o ∧
      o.uid = uid ∧ o.status = .pending ∧
      o1 = { o with status := OrderStatus.cancelled, cancelledAt := some s.now } ∧
      s1 = { s with
        orders := updateFirst (fun x => x.id = orderId) (fun _ => o1) s.orders
        offerings := restoreOffering s.offerings o.offeringId
        now := s.now + 1 } := by
  unfold cancelOrder at h
  split at h
  · exact absurd h (by simp)
  · rename_i o heq
    split at h
    · exact absurd h (by simp)
    · rename_i huid
      split at h
      · exact absurd h (by simp)
      · rename_i hst
        dsimp only at h
        rw [Except.ok.injEq, Prod.mk.injEq] at h
        obtain ⟨ho, hs⟩ := h
        subst ho
        exact ⟨o, heq, not_not.mp huid, not_not.mp hst, rfl, hs.symm⟩

theorem validateOrderQr_ok (ownerUid : String) (qrToken : Nat) (s : EngineState)
    (o1 : Order) (s1 : EngineState)
    (h : validateOrderQr ownerUid qrToken s = .ok (o1, s1)) :
    ∃ o, s.orders.find? (fun x => x.qrToken = qrToken) = some o ∧
      o.ownerUid = ownerUid ∧ o.status = .pending ∧
      o1 = { o with status := OrderStatus.collected, collectedAt := some s.now } ∧
      s1 = { s with
        orders := updateFirst (fun x => x.qrToken = qrToken) (fun _ => o1) s.orders
        now := s.now + 1 } := by
  unfold validateOrderQr at h
  split at h
  · exact absurd h (by simp)
  · rename_i o heq
    split at h
    · exact absurd h (by simp)
    · rename_i hown
      split at h
      · exact absurd h (by simp)
      · exact absurd h (by simp)
      · rename_i hst
        dsimp only at h
        rw [Except.ok.injEq, Prod.mk.injEq] at h
        obtain ⟨ho, hs⟩ := h
        subst ho
        exact ⟨o, heq, not_not.mp hown, hst, rfl, hs.symm⟩

/-! ### Preservation of the inventory invariant by every operation. -/

theorem inventoryInv_applyOp (s : EngineState) (op : Op) (h : InventoryInv s) :
    InventoryInv (applyOp s op) := by
  cases op with
  | create uid oid =>
    dsimp only [applyOp]
    split
    · rename_i r heq
      obtain ⟨off, hoff, hqty, _, ho, hs⟩ :=
        createOrder_ok uid oid s r.1 r.2 (by rw [heq])
      intro k offk hk
      rw [hs] at hk
      dsimp only at hk
      have hcount : nonCancelledCount (s.orders ++ [r.1]) k =
          nonCancelledCount s.orders k + (if ncPred k r.1 then 1 else 0) := by
        unfold nonCancelledCount
        rw [List.countP_append, List.countP_cons, List.countP_nil]
        omega
      by_cases hko : k = oid
      · subst hko
        rw [getOffering_mapOffering_self, hoff] at hk
        have hoffk : offk = decrementUpdate off := by
          simpa using hk.symm
        have hpred : ncPred k r.1 = true := by
          rw [ho]
          simp [ncPred]
        obtain ⟨h0, heqq⟩ := h k off hoff
        have hcount2 : nonCancelledCount (s.orders ++ [r.1]) k =
            nonCancelledCount s.orders k + 1 := by
          rw [hcount, hpred]
          simp
        rw [hs]
        dsimp only
        rw [hoffk, hcount2]
        unfold decrementUpdate
        refine ⟨by dsimp only; omega, ?_⟩
        dsimp only
        push_cast
        omega
      · rw [getOffering_mapOffering_ne _ _ _ _ hko] at hk
        have hpred : ncPred k r.1 = false := by
          rw [ho]
          simp [ncPred]
          intro hc
          exact absurd hc.symm hko
        obtain ⟨h0, heqq⟩ := h k offk hk
        have hcount2 : nonCancelledCount (s.orders ++ [r.1]) k =
            nonCancelledCount s.orders k := by
          rw [hcount, hpred]
          simp
        rw [hs]
        dsimp only
        rw [hcount2]
        exact ⟨h0, heqq⟩
    · exact h
  | cancel orderId uid =>
    dsimp only [applyOp]
    split
    · rename_i r heq
      obtain ⟨o, hfind, _, hpend, ho, hs⟩ :=
        cancelOrder_ok orderId uid s r.1 r.2 (by rw [heq])
      obtain ⟨hpo, l₁, l₂, hdec, hl₁⟩ :=
        find?_eq_some_decomp (fun x => x.id = orderId) s.orders o hfind
      have hupd : updateFirst (fun x => x.id = orderId) (fun _ => r.1) s.orders =
          l₁ ++ r.1 :: l₂ := by
        rw [hdec]
        exact updateFirst_middle _ _ l₁ l₂ o hl₁ hpo
      intro k offk hk
      rw [hs] at hk
      dsimp only at hk
      rw [restoreOffering_eq] at hk
      have hcounts : ∀ kk : String, nonCancelledCount s.orders kk =
          List.countP (ncPred kk) l₁ + List.countP (ncPred kk) l₂ +
            (if ncPred kk o then 1 else 0) := by
        intro kk
        unfold nonCancelledCount
        rw [hdec]
        exact countP_middle _ _ _ _
      have hcounts1 : ∀ kk : String, nonCancelledCount (l₁ ++ r.1 :: l₂) kk =
          List.countP (ncPred kk) l₁ + List.countP (ncPred kk) l₂ +
            (if ncPred kk r.1 then 1 else 0) := by
        intro kk
        unfold nonCancelledCount
        exact countP_middle _ _ _ _
      have hpred1 : ∀ kk : String, ncPred kk r.1 = false := by
        intro kk
        rw [ho]
        simp [ncPred]
      by_cases hko : k = o.offeringId
      · rw [hko] at hk ⊢
        rw [getOffering_mapOffering_self] at hk
        cases hoffq : getOffering s.offerings o.offeringId with
        | none => rw [hoffq] at hk; exact absurd hk (by simp)
        | some off =>
          rw [hoffq] at hk
          have hoffk : offk = restoreUpdate off := by simpa using hk.symm
          have hpredo : ncPred o.offeringId o = true := by
            simp [ncPred, hpend]
          obtain ⟨h0, heqq⟩ := h o.offeringId off hoffq
          have hc0 : nonCancelledCount s.orders o.offeringId =
              List.countP (ncPred o.offeringId) l₁ +
                List.countP (ncPred o.offeringId) l₂ + 1 := by
            rw [hcounts o.offeringId, hpredo]
            simp
          have hc1 : nonCancelledCount (l₁ ++ r.1 :: l₂) o.offeringId =
              List.countP (ncPred o.offeringId) l₁ +
                List.countP (ncPred o.offeringId) l₂ := by
            rw [hcounts1 o.offeringId, hpred1]
            simp
          rw [hs]
          dsimp only
          rw [hupd, hoffk, hc1]
          rw [hc0] at heqq
          unfold restoreUpdate
          refine ⟨by dsimp only; omega, ?_⟩
          dsimp only
          push_cast at heqq ⊢
          omega
      · rw [getOffering_mapOffering_ne _ _ _ _ hko] at hk
        have hpredo : ncPred k o = false := by
          simp [ncPred]
          intro hc
          exact absurd hc.symm hko
        obtain ⟨h0, heqq⟩ := h k offk hk
        have hc0 : nonCancelledCount s.orders k =
            List.countP (ncPred k) l₁ + List.countP (ncPred k) l₂ := by
          rw [hcounts k, hpredo]
          simp
        have hc1 : nonCancelledCount (l₁ ++ r.1 :: l₂) k =
            List.countP (ncPred k) l₁ + List.countP (ncPred k) l₂ := by
          rw [hcounts1 k, hpred1]
          simp
        rw [hs]
        dsimp only
        rw [hupd, hc1]
        rw [hc0] at heqq
        exact ⟨h0, heqq⟩
    · exact h
  | validate ow t =>
    dsimp only [applyOp]
    split
    · rename_i r heq
      obtain ⟨o, hfind, _, hpend, ho, hs⟩ :=
        validateOrderQr_ok ow t s r.1 r.2 (by rw [heq])
      obtain ⟨hpo, l₁, l₂, hdec, hl₁⟩ :=
        find?_eq_some_decomp (fun x => x.qrToken = t) s.orders o hfind
      have hupd : updateFirst (fun x => x.qrToken = t) (fun _ => r.1) s.orders =
          l₁ ++ r.1 :: l₂ := by
        rw [hdec]
        exact updateFirst_middle _ _ l₁ l₂ o hl₁ hpo
      intro k offk hk
      rw [hs] at hk
      dsimp only at hk
      have hpredeq : ∀ kk : String, ncPred kk r.1 = ncPred kk o := by
        intro kk
        rw [ho]
        simp [ncPred, hpend]
      obtain ⟨h0, heqq⟩ := h k offk hk
      rw [hs]
      dsimp only
      rw [hupd]
      have : nonCancelledCount (l₁ ++ r.1 :: l₂) k = nonCancelledCount s.orders k := by
        unfold nonCancelledCount
        rw [hdec, countP_middle, countP_middle, hpredeq]
      rw [this]
      exact ⟨h0, heqq⟩
    · exact h

/-- Iterated preservation along any interleaving. -/
theorem inventoryInv_run (s : EngineState) (ops : List Op) (h : InventoryInv s) :
    InventoryInv (run s ops) := by
  induction ops generalizing s with
  | nil => exact h
  | cons op rest ih =>
    exact ih (applyOp s op) (inventoryInv_applyOp s op h)

/-- The invariant holds in any freshly published state. -/
theorem inventoryInv_initial (s : EngineState) (h : InitialState s) :
    InventoryInv s := by
  obtain ⟨hord, hoff⟩ := h
  intro oid off hk
  have hmem : ∃ kv, kv ∈ s.offerings ∧ kv.2 = off := by
    unfold getOffering at hk
    cases hfind : s.offerings.find? (fun kv => kv.1 = oid) with
    | none => rw [hfind] at hk; exact absurd hk (by simp)
    | some kv =>
      rw [hfind] at hk
      exact ⟨kv, List.mem_of_find?_eq_some hfind, by simpa using hk⟩
  obtain ⟨kv, hmem, hkv⟩ := hmem
  have := hoff kv hmem
  rw [hkv] at this
  rw [hord]
  unfold nonCancelledCount
  rw [List.countP_nil]
  constructor
  · rw [this]
    exact Int.natCast_nonneg _
  · rw [this]
    simp

/-- C1: no oversell.  Starting from any freshly published state, after any
sequence of createOrder, cancelOrder and validateOrderQr calls (concurrent
executions are serialised by the store transactions into exactly such a
sequence, and every prefix of the sequence is itself such a sequence, so the
bound holds at every observable state), every Offering still visible has
availableQuantity at least 0 and equal to its originally published quantity
minus the number of non-cancelled Orders referencing it. -/
theorem no_oversell (s : EngineState) (h : InitialState s) (ops : List Op)
    (oid : String) (off : Offering)
    (hoff : getOffering (run s ops).offerings oid = some off) :
    0 ≤ off.availableQuantity ∧
    off.availableQuantity =
      (off.publishedQuantity : Int) - nonCancelledCount (run s ops).orders oid :=
  inventoryInv_run s ops (inventoryInv_initial s h) oid off hoff

/-- Witness for C1 at a concrete initial state and interleaving. -/
theorem no_oversell_witness :
    0 ≤ offC1.availableQuantity ∧
    offC1.availableQuantity =
      (offC1.publishedQuantity : Int) - nonCancelledCount (run sC1init opsC1).orders "o1" :=
  no_oversell sC1init (by unfold InitialState; decide) opsC1 "o1" offC1 (by decide)

theorem orders_step (s : EngineState) (op : Op) :
    List.Forall₂ (fun o o1 : Order => o.id = o1.id ∧ StatusStep o.status o1.status)
      s.orders ((applyOp s op).orders.take s.orders.length) := by
  have hrefl : ∀ l : List Order,
      List.Forall₂ (fun o o1 : Order => o.id = o1.id ∧ StatusStep o.status o1.status)
        l (l.take l.length) := by
    intro l
    rw [List.take_length]
    exact List.forall₂_same.mpr (fun x _ => ⟨rfl, Or.inl rfl⟩)
  cases op with
  | create uid oid =>
    dsimp only [applyOp]
    split
    · rename_i r heq
      obtain ⟨off, _, _, _, _, hs⟩ := createOrder_ok uid oid s r.1 r.2 (by rw [heq])
      rw [hs]
      dsimp only
      rw [List.take_left]
      exact List.forall₂_same.mpr (fun x _ => ⟨rfl, Or.inl rfl⟩)
    · exact hrefl s.orders
  | cancel orderId uid =>
    dsimp only [applyOp]
    split
    · rename_i r heq
      obtain ⟨o, hfind, _, hpend, ho, hs⟩ :=
        cancelOrder_ok orderId uid s r.1 r.2 (by rw [heq])
      obtain ⟨hpo, l₁, l₂, hdec, hl₁⟩ :=
        find?_eq_some_decomp (fun x => x.id = orderId) s.orders o hfind
      have hupd : updateFirst (fun x => x.id = orderId) (fun _ => r.1) s.orders =
          l₁ ++ r.1 :: l₂ := by
        rw [hdec]
        exact updateFirst_middle _ _ l₁ l₂ o hl₁ hpo
      rw [hs]
      dsimp only
      rw [hupd]
      have hlen : s.orders.length = (l₁ ++ r.1 :: l₂).length := by
        rw [hdec]
        simp
      rw [hlen, List.take_length, hdec]
      refine List.rel_append (List.forall₂_same.mpr (fun x _ => ⟨rfl, Or.inl rfl⟩)) ?_
      refine List.Forall₂.cons ⟨by rw [ho], Or.inr ⟨hpend, Or.inr (by rw [ho])⟩⟩
        (List.forall₂_same.mpr (fun x _ => ⟨rfl, Or.inl rfl⟩))
    · exact hrefl s.orders
  | validate ow t =>
    dsimp only [applyOp]
    split
    · rename_i r heq
      obtain ⟨o, hfind, _, hpend, ho, hs⟩ :=
        validateOrderQr_ok ow t s r.1 r.2 (by rw [heq])
      obtain ⟨hpo, l₁, l₂, hdec, hl₁⟩ :=
        find?_eq_some_decomp (fun x => x.qrToken = t) s.orders o hfind
      have hupd : updateFirst (fun x => x.qrToken = t) (fun _ => r.1) s.orders =
          l₁ ++ r.1 :: l₂ := by
        rw [hdec]
        exact updateFirst_middle _ _ l₁ l₂ o hl₁ hpo
      rw [hs]
      dsimp only
      rw [hupd]
      have hlen : s.orders.length = (l₁ ++ r.1 :: l₂).length := by
        rw [hdec]
        simp
      rw [hlen, List.take_length, hdec]
      refine List.rel_append (List.forall₂_same.mpr (fun x _ => ⟨rfl, Or.inl rfl⟩)) ?_
      refine List.Forall₂.cons ⟨by rw [ho], Or.inr ⟨hpend, Or.inl (by rw [ho])⟩⟩
        (List.forall₂_same.mpr (fun x _ => ⟨rfl, Or.inl rfl⟩))
    · exact hrefl s.orders

theorem cancelOrder_second (orderId : Nat) (uid : String) (s : EngineState)
    (o1 : Order) (s1 : EngineState)
    (h : cancelOrder orderId uid s = .ok (o1, s1)) :
    cancelOrder orderId uid s1 = .error .invalidState := by
  obtain ⟨o, hfind, huid, hpend, ho, hs⟩ := cancelOrder_ok orderId uid s o1 s1 h
  obtain ⟨hpo, l₁, l₂, hdec, hl₁⟩ :=
    find?_eq_some_decomp (fun x => x.id = orderId) s.orders o hfind
  have hfind1 : s1.orders.find? (fun x => x.id = orderId) = some o1 := by
    rw [hs]
    dsimp only
    rw [hdec, updateFirst_middle _ _ l₁ l₂ o hl₁ hpo]
    refine find?_middle _ _ _ _ hl₁ ?_
    rw [ho]
    simpa using hpo
  unfold cancelOrder
  rw [hfind1]
  dsimp only
  rw [if_neg (not_not.mpr (by rw [ho]; exact huid)), if_pos (by rw [ho]; simp)]

/-- C2: order lifecycle.  Every operation either leaves an existing Order
status unchanged or moves it from pending to collected or from pending to
cancelled (positions of existing Orders are preserved, so the relation is
pointwise); a second cancelOrder on an already cancelled Order is rejected
by the terminal-state check with InvalidState and leaves the state
untouched, so the Offering inventory restored by the first cancellation
(availableQuantity plus one) is restored exactly once; the client canCancel
guard likewise refuses a cancelled order. -/
theorem order_lifecycle_and_cancel_once :
    (∀ (s : EngineState) (op : Op),
      List.Forall₂ (fun o o1 : Order => o.id = o1.id ∧ StatusStep o.status o1.status)
        s.orders ((applyOp s op).orders.take s.orders.length)) ∧
    (∀ (orderId : Nat) (uid : String) (s : EngineState) (o1 : Order) (s1 : EngineState),
      cancelOrder orderId uid s = .ok (o1, s1) →
        cancelOrder orderId uid s1 = .error .invalidState ∧
        applyOp s1 (Op.cancel orderId uid) = s1 ∧
        ∀ off, getOffering s.offerings o1.offeringId = some off →
          getOffering s1.offerings o1.offeringId = some (restoreUpdate off)) ∧
    canCancel (some "cancelled") = false := by
  refine ⟨orders_step, ?_, by decide⟩
  intro orderId uid s o1 s1 h
  have hsecond := cancelOrder_second orderId uid s o1 s1 h
  refine ⟨hsecond, ?_, ?_⟩
  · dsimp only [applyOp]
    rw [hsecond]
  · intro off hoff
    obtain ⟨o, hfind, huid, hpend, ho, hs⟩ := cancelOrder_ok orderId uid s o1 s1 h
    have hoid : o1.offeringId = o.offeringId := by rw [ho]
    rw [hs]
    dsimp only
    rw [restoreOffering_eq, hoid, getOffering_mapOffering_self]
    rw [hoid] at hoff
    rw [hoff]
    rfl

/-- Witness for C2: cancelling the concrete order succeeds once, restores
the offering quantity to one, and a second cancel is rejected with
InvalidState. -/
theorem order_lifecycle_and_cancel_once_witness :
    cancelOrder 0 "stud" sC2b = .error .invalidState ∧
    getOffering sC2b.offerings "o1" = some (restoreUpdate
      { publishedQuantity := 1, availableQuantity := 0, status := "sold-out",
        ownerUid := "own", launchFeeRefund := true }) :=
  ⟨(order_lifecycle_and_cancel_once.2.1 0 "stud" sC2a ordC2c sC2b (by decide)).1,
   (order_lifecycle_and_cancel_once.2.1 0 "stud" sC2a ordC2c sC2b (by decide)).2.2
     { publishedQuantity := 1, availableQuantity := 0, status := "sold-out",
       ownerUid := "own", launchFeeRefund := true } (by decide)⟩

/-! ### Claim C3: at-most-once collection. -/

theorem tokenInv_of_map_eq (s s1 : EngineState)
    (hmap : s1.orders.map (fun o => o.qrToken) = s.orders.map (fun o => o.qrToken))
    (hnext : s.nextToken ≤ s1.nextToken) (hinv : TokenInv s) : TokenInv s1 := by
  constructor
  · rw [hmap]
    exact hinv.1
  · intro o ho
    have hm : o.qrToken ∈ s1.orders.map (fun o => o.qrToken) :=
      List.mem_map_of_mem _ ho
    rw [hmap] at hm
    obtain ⟨o2, ho2, htok⟩ := List.mem_map.mp hm
    rw [← htok]
    exact lt_of_lt_of_le (hinv.2 o2 ho2) hnext

/-- Tokens are injective on the order list under the token invariant. -/
theorem token_inj (s : EngineState) (hinv : TokenInv s) (x y : Order)
    (hx : x ∈ s.orders) (hy : y ∈ s.orders) (ht : x.qrToken = y.qrToken) :
    x = y :=
  List.inj_on_of_nodup_map hinv.1 hx hy ht

/-- One step preserves the token invariant and the visibility of an already
collected order under its token. -/
theorem collected_preserved (t : Nat) (o : Order) (hco : o.status = .collected)
    (s : EngineState) (op : Op) (hinv : TokenInv s)
    (hfind : s.orders.find? (fun x => x.qrToken = t) = some o) :
    TokenInv (applyOp s op) ∧
    (applyOp s op).orders.find? (fun x => x.qrToken = t) = some o := by
  have homem : o ∈ s.orders := List.mem_of_find?_eq_some hfind
  cases op with
  | create uid oid =>
    dsimp only [applyOp]
    split
    · rename_i r heq
      obtain ⟨off, _, _, _, ho, hs⟩ := createOrder_ok uid oid s r.1 r.2 (by rw [heq])
      rw [hs]
      dsimp only
      constructor
      · constructor
        · rw [List.map_append]
          rw [List.nodup_append]
          refine ⟨hinv.1, by simp, ?_⟩
          intro a ha hb
          simp only [List.map_cons, List.map_nil, List.mem_cons,
            List.not_mem_nil, or_false] at hb
          obtain ⟨o2, ho2, htok⟩ := List.mem_map.mp ha
          have := hinv.2 o2 ho2
          rw [htok, hb, ho] at this
          exact absurd this (by simp)
        · intro x hx
          rcases List.mem_append.mp hx with hx1 | hx2
          · exact Nat.lt_succ_of_lt (hinv.2 x hx1)
          · simp only [List.mem_cons, List.not_mem_nil, or_false] at hx2
            rw [hx2, ho]
            exact Nat.lt_succ_self _
      · rw [List.find?_append, hfind]
        rfl
    · exact ⟨hinv, hfind⟩
  | cancel orderId uid =>
    dsimp only [applyOp]
    split
    · rename_i r heq
      obtain ⟨x, hfindx, _, hpend, hr, hs⟩ :=
        cancelOrder_ok orderId uid s r.1 r.2 (by rw [heq])
      obtain ⟨hpx, l₁, l₂, hdec, hl₁⟩ :=
        find?_eq_some_decomp (fun y => y.id = orderId) s.orders x hfindx
      have hxmem : x ∈ s.orders := List.mem_of_find?_eq_some hfindx
      have hupd : updateFirst (fun y => y.id = orderId) (fun _ => r.1) s.orders =
          l₁ ++ r.1 :: l₂ := by
        rw [hdec]
        exact updateFirst_middle _ _ l₁ l₂ x hl₁ hpx
      have hot : o.qrToken = t := by
        have hq := List.find?_some hfind
        simpa using hq
      have hxt : x.qrToken ≠ t := by
        intro hxteq
        have hxo : x = o := token_inj s hinv x o hxmem homem (by rw [hxteq, hot])
        rw [hxo, hco] at hpend
        exact absurd hpend (by simp)
      have hrt : r.1.qrToken = x.qrToken := by rw [hr]
      have hmap : (l₁ ++ r.1 :: l₂).map (fun y => y.qrToken) =
          s.orders.map (fun y => y.qrToken) := by
        rw [hdec]
        simp [hrt]
      rw [hs]
      dsimp only
      rw [hupd]
      constructor
      · refine tokenInv_of_map_eq s _ (by dsimp only; exact hmap) (by dsimp only; exact le_refl _) hinv
      · rw [hdec] at hfind
        rw [find?_middle_congr (fun y => decide (y.qrToken = t)) l₁ l₂ r.1 x
          (by simpa [hrt] using hxt) (by simpa using hxt)]
        exact hfind
    · exact ⟨hinv, hfind⟩
  | validate ow t2 =>
    dsimp only [applyOp]
    split
    · rename_i r heq
      obtain ⟨y, hfindy, _, hpend, hr, hs⟩ :=
        validateOrderQr_ok ow t2 s r.1 r.2 (by rw [heq])
      by_cases ht2 : t2 = t
      · rw [ht2] at hfindy
        rw [hfindy] at hfind
        have hyo : y = o := by injection hfind
        rw [hyo, hco] at hpend
        exact absurd hpend (by simp)
      · obtain ⟨hpy, l₁, l₂, hdec, hl₁⟩ :=
          find?_eq_some_decomp (fun z => z.qrToken = t2) s.orders y hfindy
        have hupd : updateFirst (fun z => z.qrToken = t2) (fun _ => r.1) s.orders =
            l₁ ++ r.1 :: l₂ := by
          rw [hdec]
          exact updateFirst_middle _ _ l₁ l₂ y hl₁ hpy
        have hyt : y.qrToken ≠ t := by
          have : y.qrToken = t2 := by simpa using hpy
          rw [this]
          exact ht2
        have hrt : r.1.qrToken = y.qrToken := by rw [hr]
        have hmap : (l₁ ++ r.1 :: l₂).map (fun z => z.qrToken) =
            s.orders.map (fun z => z.qrToken) := by
          rw [hdec]
          simp [hrt]
        rw [hs]
        dsimp only
        rw [hupd]
        constructor
        · exact tokenInv_of_map_eq s _ (by dsimp only; exact hmap) (by dsimp only; exact le_refl _) hinv
        · rw [hdec] at hfind
          rw [find?_middle_congr (fun z => decide (z.qrToken = t)) l₁ l₂ r.1 y
            (by simpa [hrt] using hyt) (by simpa using hyt)]
          exact hfind
    · exact ⟨hinv, hfind⟩

/-- The collected order stays visible under its token through any further
interleaving. -/
theorem collected_run (t : Nat) (o : Order) (hco : o.status = .collected)
    (s : EngineState) (ops : List Op) (hinv : TokenInv s)
    (hfind : s.orders.find? (fun x => x.qrToken = t) = some o) :
    TokenInv (run s ops) ∧
    (run s ops).orders.find? (fun x => x.qrToken = t) = some o := by
  induction ops generalizing s with
  | nil => exact ⟨hinv, hfind⟩
  | cons op rest ih =>
    obtain ⟨hinv1, hfind1⟩ := collected_preserved t o hco s op hinv hfind
    exact ih (applyOp s op) hinv1 hfind1

/-- What a successful validation leaves behind: the token invariant still
holds, the returned order is the one the token finds, it is collected, its
collectedAt is the stamp of this call, and its recorded owner is the caller. -/
theorem validateOrderQr_ok_post (ownerUid : String) (t : Nat) (s : EngineState)
    (o : Order) (s1 : EngineState) (hinv : TokenInv s)
    (h : validateOrderQr ownerUid t s = .ok (o, s1)) :
    TokenInv s1 ∧
    s1.orders.find? (fun x => x.qrToken = t) = some o ∧
    o.status = .collected ∧ o.ownerUid = ownerUid ∧ o.collectedAt = some s.now := by
  obtain ⟨y, hfindy, hown, hpend, ho, hs⟩ := validateOrderQr_ok ownerUid t s o s1 h
  obtain ⟨hpy, l₁, l₂, hdec, hl₁⟩ :=
    find?_eq_some_decomp (fun z => z.qrToken = t) s.orders y hfindy
  have hupd : updateFirst (fun z => z.qrToken = t) (fun _ => o) s.orders =
      l₁ ++ o :: l₂ := by
    rw [hdec]
    exact updateFirst_middle _ _ l₁ l₂ y hl₁ hpy
  have hot : o.qrToken = y.qrToken := by rw [ho]
  have hmap : (l₁ ++ o :: l₂).map (fun z => z.qrToken) =
      s.orders.map (fun z => z.qrToken) := by
    rw [hdec]
    simp [hot]
  refine ⟨?_, ?_, by rw [ho], by rw [ho]; exact hown, by rw [ho]⟩
  · refine tokenInv_of_map_eq s s1 ?_ ?_ hinv
    · rw [hs]
      dsimp only
      rw [hupd]
      exact hmap
    · rw [hs]
  · rw [hs]
    dsimp only
    rw [hupd]
    refine find?_middle _ _ _ _ hl₁ ?_
    rw [hot]
    exact hpy

/-- A collected order found under its token makes an owner validation call
answer AlreadyCollected without any state change. -/
theorem validateOrderQr_already (owner : String) (t : Nat) (s : EngineState)
    (o : Order) (hfind : s.orders.find? (fun x => x.qrToken = t) = some o)
    (hco : o.status = .collected) (hown : o.ownerUid = owner) :
    validateOrderQr owner t s = .error .alreadyCollected := by
  unfold validateOrderQr
  rw [hfind]
  dsimp only
  rw [if_neg (not_not.mpr hown), hco]

/-- C3 (amended): at-most-once collection.  After one validateOrderQr call
succeeds, every later validateOrderQr call with that token made by the
offering owner returns the distinct AlreadyCollected result, whatever other
operations ran in between, and the stored order record, collectedAt stamp
included, is exactly the one the first success produced, never re-mutated.
The amendment: a later call with the same token but a different caller is
answered Forbidden by the ownership check, which fires before the status
check, so only the owner sees AlreadyCollected. -/
theorem at_most_once_collection (s : EngineState) (hinv : TokenInv s)
    (owner : String) (t : Nat) (o : Order) (s1 : EngineState)
    (h : validateOrderQr owner t s = .ok (o, s1)) (ops : List Op) :
    validateOrderQr owner t (run s1 ops) = .error .alreadyCollected ∧
    (run s1 ops).orders.find? (fun x => x.qrToken = t) = some o ∧
    o.collectedAt = some s.now := by
  obtain ⟨hinv1, hfind1, hco, hown, hcat⟩ :=
    validateOrderQr_ok_post owner t s o s1 hinv h
  obtain ⟨hinv2, hfind2⟩ := collected_run t o hco s1 ops hinv1 hfind1
  exact ⟨validateOrderQr_already owner t (run s1 ops) o hfind2 hco hown, hfind2, hcat⟩

/-- Counterexample to C3 as stated: after the first validateOrderQr call
with token 5 succeeds, a later validateOrderQr call with that same token by
a different caller returns Forbidden, not the AlreadyCollected result the
claim promises for every later call with the token. -/
theorem at_most_once_collection_counterexample :
    validateOrderQr "owner" 5 sC3a = .ok (ordC3c, sC3b) ∧
    validateOrderQr "intruder" 5 sC3b = .error .forbidden ∧
    validateOrderQr "intruder" 5 sC3b ≠ .error .alreadyCollected := by
  refine ⟨by decide, by decide, by decide⟩

/-- Witness for the amended C3 at a concrete state: after the successful
validation and one unrelated interleaved call, the owner retry with token 5
is answered AlreadyCollected and the stored record still carries
collectedAt 10. -/
theorem at_most_once_collection_witness :
    validateOrderQr "owner" 5 (run sC3b [Op.cancel 0 "stud"]) =
      .error .alreadyCollected ∧
    (run sC3b [Op.cancel 0 "stud"]).orders.find? (fun x => x.qrToken = 5) =
      some ordC3c ∧
    ordC3c.collectedAt = some 10 :=
  at_most_once_collection sC3a (by unfold TokenInv; decide) "owner" 5 ordC3c sC3b
    (by decide) [Op.cancel 0 "stud"]

/-- C4: registration atomicity.  Every createUserWithLogin call either lands
all four writes together (the User document, the phone marker, the email
marker, the login-history entry) or performs none of them: on a conflict the
observable state is unchanged and the call reports Conflict naming an
already-registered field.  No partial registration is ever observable. -/
theorem createUserWithLogin_atomic (uid phone email name ip userAgent : String)
    (now : Nat) (s : RegState) :
    (∃ s1, createUserWithLogin uid phone email name ip userAgent now s = .ok s1 ∧
      s1.users = s.users ++ [(uid, { name := name, email := email, phone := phone })] ∧
      s1.phoneMarkers = s.phoneMarkers ++ [(normalizePhone phone, uid)] ∧
      s1.emailMarkers = s.emailMarkers ++ [(normalizeEmail email, uid)] ∧
      s1.loginHistory = s.loginHistory ++
        [{ uid := uid, timestamp := now, ip := ip, userAgent := userAgent }] ∧
      applyReg uid phone email name ip userAgent now s = s1) ∨
    (∃ f, createUserWithLogin uid phone email name ip userAgent now s =
        .error (.conflict f) ∧
      fieldTaken f uid phone email s ∧
      applyReg uid phone email name ip userAgent now s = s) := by
  by_cases h1 : (s.users.find? (fun kv => kv.1 = uid)).isSome = true
  · have hres : createUserWithLogin uid phone email name ip userAgent now s =
        .error (.conflict "uid") := by
      unfold createUserWithLogin
      rw [if_pos h1]
    exact Or.inr ⟨"uid", hres, Or.inl ⟨rfl, h1⟩, by unfold applyReg; rw [hres]⟩
  · by_cases h2 : (s.phoneMarkers.find? (fun kv => kv.1 = normalizePhone phone)).isSome = true
    · have hres : createUserWithLogin uid phone email name ip userAgent now s =
          .error (.conflict "phone") := by
        unfold createUserWithLogin
        rw [if_neg h1, if_pos h2]
      exact Or.inr ⟨"phone", hres, Or.inr (Or.inl ⟨rfl, h2⟩), by unfold applyReg; rw [hres]⟩
    · by_cases h3 : (s.emailMarkers.find? (fun kv => kv.1 = normalizeEmail email)).isSome = true
      · have hres : createUserWithLogin uid phone email name ip userAgent now s =
            .error (.conflict "email") := by
          unfold createUserWithLogin
          rw [if_neg h1, if_neg h2, if_pos h3]
        exact Or.inr ⟨"email", hres, Or.inr (Or.inr ⟨rfl, h3⟩),
          by unfold applyReg; rw [hres]⟩
      · have hres : createUserWithLogin uid phone email name ip userAgent now s =
            .ok
              { users := s.users ++ [(uid, { name := name, email := email, phone := phone })]
                phoneMarkers := s.phoneMarkers ++ [(normalizePhone phone, uid)]
                emailMarkers := s.emailMarkers ++ [(normalizeEmail email, uid)]
                loginHistory := s.loginHistory ++
                  [{ uid := uid, timestamp := now, ip := ip, userAgent := userAgent }] } := by
          unfold createUserWithLogin
          rw [if_neg h1, if_neg h2, if_neg h3]
        exact Or.inl ⟨_, hres, rfl, rfl, rfl, rfl, by unfold applyReg; rw [hres]⟩

/-! ### Claim C5: the inventory decrement condition. -/

/-- C5: the Inventory Ledger decrement fails NotFound exactly when the
Offering is absent; fails SoldOut when availableQuantity is at most 0 or the
status is outside the available set (the available set being the source
isAvailableStatus check, case-insensitive membership in [available, open]);
otherwise it writes availableQuantity minus one and flips the status to
sold-out exactly when the result is 0. -/
theorem decrement_condition (offs : List (String × Offering)) (oid : String) :
    (getOffering offs oid = none →
      decrementOffering offs oid = .error .notFound) ∧
    (∀ off, getOffering offs oid = some off →
      ((off.availableQuantity ≤ 0 ∨ isAvailableStatus off.status = false) →
        decrementOffering offs oid = .error .soldOut) ∧
      (0 < off.availableQuantity → isAvailableStatus off.status = true →
        ∃ offs1, decrementOffering offs oid = .ok offs1 ∧
          getOffering offs1 oid = some
            { off with
              availableQuantity := off.availableQuantity - 1
              status :=
                if off.availableQuantity - 1 = 0 then "sold-out" else off.status })) := by
  constructor
  · intro hnone
    rw [decrementOffering_eq, hnone]
  · intro off hoff
    constructor
    · intro hbad
      rw [decrementOffering_eq, hoff]
      dsimp only
      rw [if_pos]
      rcases hbad with hq | hs2
      · simp [hq]
      · simp [hs2]
    · intro hq hst
      rw [decrementOffering_eq, hoff]
      dsimp only
      rw [if_neg (by simp [hst]; omega)]
      refine ⟨_, rfl, ?_⟩
      rw [getOffering_mapOffering_self, hoff]
      rfl

/-- Witness for C5: decrementing the last unit writes quantity 0 and flips
the status to sold-out. -/
theorem decrement_condition_witness :
    ∃ offs1, decrementOffering offsC5 "o1" = .ok offs1 ∧
      getOffering offs1 "o1" = some
        { publishedQuantity := 3, availableQuantity := 0, status := "sold-out",
          ownerUid := "own", launchFeeRefund := false } :=
  ((decrement_condition offsC5 "o1").2
    { publishedQuantity := 3, availableQuantity := 1, status := "Available",
      ownerUid := "own", launchFeeRefund := false }
    (by decide)).2 (by decide) (by decide)

/-! ### Claim C6: listOrdersForUser bound and ordering. -/

/-- C6: for every student uid, listOrdersForUser returns at most 50 Orders,
ordered newest first by creation time, and every returned Order is one of
the stored Orders of that student. -/
theorem listOrdersForUser_spec (uid : String) (orders : List Order) :
    (listOrdersForUser uid orders).length ≤ 50 ∧
    (listOrdersForUser uid orders).Pairwise
      (fun a b => b.createdAt ≤ a.createdAt) ∧
    ∀ o ∈ listOrdersForUser uid orders, o ∈ orders ∧ o.uid = uid := by
  refine ⟨?_, ?_, ?_⟩
  · unfold listOrdersForUser
    rw [List.length_take]
    exact min_le_left _ _
  · unfold listOrdersForUser
    refine List.Pairwise.sublist (List.take_sublist _ _) ?_
    have hsorted := List.sorted_insertionSort newestFirst
      (orders.filter (fun o => o.uid = uid))
    exact hsorted.imp (fun h => h)
  · intro o ho
    unfold listOrdersForUser at ho
    have hmem := List.take_subset _ _ ho
    rw [List.mem_insertionSort] at hmem
    have hf := List.mem_filter.mp hmem
    exact ⟨hf.1, by simpa using hf.2⟩

/-- Witness for C6 on concrete data: the bound holds and the listed order is
one of the student's stored orders. -/
theorem listOrdersForUser_spec_witness :
    (listOrdersForUser "stud" ordersC6).length ≤ 50 ∧
    ordC6new ∈ ordersC6 ∧ ordC6new.uid = "stud" :=
  ⟨(listOrdersForUser_spec "stud" ordersC6).1,
   ((listOrdersForUser_spec "stud" ordersC6).2.2 ordC6new (by decide)).1,
   ((listOrdersForUser_spec "stud" ordersC6).2.2 ordC6new (by decide)).2⟩

/-! ### Claim C7: subscription deactivation frame. -/

/-- C7: updateSubscription with action deactivate sets active to false and
leaves waived, renewsAt (and the fee) at their last known values, whatever
waived parameter arrives; the client sends no waived parameter on
deactivate, and on activate sends the last known value defaulting to
true. -/
theorem subscription_deactivate_frame :
    (∀ (sub : Subscription) (w : Option Bool) (now fee : Nat),
      (updateSubscription .deactivate w now fee sub).active = false ∧
      (updateSubscription .deactivate w now fee sub).renewsAt = sub.renewsAt ∧
      (updateSubscription .deactivate w now fee sub).waived = sub.waived ∧
      (updateSubscription .deactivate w now fee sub).monthlyFeeCents =
        sub.monthlyFeeCents) ∧
    (∀ pw, subscriptionWaivedParam .deactivate pw = none) ∧
    (∀ pw, subscriptionWaivedParam .activate pw = some (pw.getD true)) ∧
    subscriptionWaivedParam .activate none = some true :=
  ⟨fun _ _ _ _ => ⟨rfl, rfl, rfl, rfl⟩, fun _ => rfl, fun _ => rfl, rfl⟩

/-! ### Claim C8: apiRequest error surfacing. -/

theorem apiErrorMessage_cases (data : Option ErrBody) (bodyText : String) :
    (∀ m, truthyString (data.bind ErrBody.error) = some m →
      apiErrorMessage data bodyText = m) ∧
    (truthyString (data.bind ErrBody.error) = none →
      ∀ m, truthyString (data.bind ErrBody.message) = some m →
        apiErrorMessage data bodyText = m) ∧
    (truthyString (data.bind ErrBody.error) = none →
      truthyString (data.bind ErrBody.message) = none → bodyText ≠ "" →
      apiErrorMessage data bodyText = bodyText) ∧
    (truthyString (data.bind ErrBody.error) = none →
      truthyString (data.bind ErrBody.message) = none → bodyText = "" →
      apiErrorMessage data bodyText = "Unknown error") := by
  refine ⟨?_, ?_, ?_, ?_⟩
  · intro m hm
    unfold apiErrorMessage
    rw [hm]
  · intro h1 m hm
    unfold apiErrorMessage
    rw [h1, hm]
  · intro h1 h2 hb
    unfold apiErrorMessage
    rw [h1, h2]
    dsimp only
    rw [if_neg hb]
  · intro h1 h2 hb
    unfold apiErrorMessage
    rw [h1, h2]
    dsimp only
    rw [if_pos hb]

/-- C8: error surfacing.  Whenever the backend answers with a status outside
the 2xx range, apiRequest never returns a success value: it throws an Error
carrying the HTTP status, the status text, the raw body, and a message that
is the backend error detail, else the backend message detail, else the raw
body, else the literal Unknown error, each step under JavaScript
truthiness.  The throw is an Except value, so a failed call only affects its
own caller. -/
theorem apiRequest_error_surfacing (resp : HttpResponse) (parsed : Option ErrBody)
    (h : responseOk resp = false) :
    ∃ e, apiRequestResult resp parsed = .error e ∧
      (∀ d, apiRequestResult resp parsed ≠ .ok d) ∧
      e.status = resp.status ∧ e.statusText = resp.statusText ∧
      e.body = resp.bodyText ∧
      (∀ m, truthyString
          ((if resp.bodyText = "" then none else parsed).bind ErrBody.error) = some m →
        e.message = m) ∧
      (truthyString
          ((if resp.bodyText = "" then none else parsed).bind ErrBody.error) = none →
        ∀ m, truthyString
            ((if resp.bodyText = "" then none else parsed).bind ErrBody.message) = some m →
          e.message = m) ∧
      (truthyString
          ((if resp.bodyText = "" then none else parsed).bind ErrBody.error) = none →
        truthyString
          ((if resp.bodyText = "" then none else parsed).bind ErrBody.message) = none →
        resp.bodyText ≠ "" → e.message = resp.bodyText) ∧
      (truthyString
          ((if resp.bodyText = "" then none else parsed).bind ErrBody.error) = none →
        truthyString
          ((if resp.bodyText = "" then none else parsed).bind ErrBody.message) = none →
        resp.bodyText = "" → e.message = "Unknown error") := by
  have hres : apiRequestResult resp parsed =
      .error
        { message := apiErrorMessage
            (if resp.bodyText = "" then none else parsed) resp.bodyText
          status := resp.status
          statusText := resp.statusText
          body := resp.bodyText } := by
    unfold apiRequestResult
    rw [if_neg (by simp [h])]
  obtain ⟨hc1, hc2, hc3, hc4⟩ :=
    apiErrorMessage_cases (if resp.bodyText = "" then none else parsed) resp.bodyText
  refine ⟨_, hres, ?_, rfl, rfl, rfl, hc1, hc2, hc3, hc4⟩
  intro d hd
  rw [hres] at hd
  exact absurd hd (by simp)

/-- Witness for C8 on a concrete 404 response: apiRequest throws, the thrown
error carries the backend detail and the status. -/
theorem apiRequest_error_surfacing_witness :
    ∃ e, apiRequestResult respC8 parsedC8 = .error e ∧
      e.status = 404 ∧ e.message = "Offering not found" := by
  obtain ⟨e, herr, _, hstat, _, _, hmsg, _⟩ :=
    apiRequest_error_surfacing respC8 parsedC8 (by decide)
  exact ⟨e, herr, hstat, hmsg "Offering not found" (by decide)⟩

/-! ### Claim C9: the launchFeeRefund default. -/

/-- C9: in the student offerings feed, a document whose launchFeeRefund
field is missing (undefined) or null is treated as refund-eligible, and any
other value is coerced with JavaScript Boolean. -/
theorem launchFeeRefund_default :
    launchFeeRefundOf .undef = true ∧ launchFeeRefundOf .null = true ∧
    ∀ v, v ≠ JsValue.undef → v ≠ JsValue.null →
      launchFeeRefundOf v = jsToBoolean v := by
  refine ⟨rfl, rfl, ?_⟩
  intro v h1 h2
  cases v with
  | undef => exact absurd rfl h1
  | null => exact absurd rfl h2
  | bool b => rfl
  | num n => rfl
  | str s => rfl

/-- Witness for C9: an explicit false field is coerced to false, not
defaulted to true. -/
theorem launchFeeRefund_default_witness :
    launchFeeRefundOf (JsValue.bool false) = jsToBoolean (JsValue.bool false) :=
  launchFeeRefund_default.2.2 (JsValue.bool false) (by decide) (by decide)

/-! ### Claim C10: cancelled orders are filtered from the carousel. -/

/-- C10: for every fetched order list, an order is in the displayed active
list exactly when it is in the fetched list and its status, lower-cased, is
not cancelled; in particular an order whose status equals cancelled
case-insensitively never appears in the student order carousel. -/
theorem activeOrders_filters_cancelled (orders : List DisplayOrder) :
    ∀ o, o ∈ activeOrders orders ↔
      o ∈ orders ∧ asciiLower (rawStatus o) ≠ "cancelled" := by
  intro o
  unfold activeOrders
  rw [List.mem_filter]
  constructor
  · rintro ⟨h1, h2⟩
    refine ⟨h1, ?_⟩
    simpa using h2
  · rintro ⟨h1, h2⟩
    exact ⟨h1, by simpa using h2⟩

end Engine
